import Mathlib

/-!
# Verification of the pin pipeline engine

Shallow embedding of the Go sources of the pin CI/CD tool (parser, condition
evaluator, shell packager, job executor with retry, container-manager copy-in
walk, SSE event broadcaster) together with proofs about the behaviour claimed
by the specification.

Strings are modelled by Lean's `String` (a packed `List Char`), and the Go
standard-library string functions used by the sources are re-implemented
structurally below so that every definition is executable and kernel-reducible.
-/

namespace Pin

/- ## Go string primitives -/

/-- Whitespace recognised by Go's `strings.TrimSpace` (ASCII range). -/
def isGoSpace (c : Char) : Bool :=
  c == ' ' || c == '\t' || c == '\n' || c == '\x0b' || c == '\x0c' || c == '\r'

/-- Trim `isGoSpace` characters from both ends of a character list. -/
def trimList (l : List Char) : List Char :=
  ((l.dropWhile isGoSpace).reverse.dropWhile isGoSpace).reverse

/-- Model of Go `strings.TrimSpace`. -/
def goTrim (s : String) : String := ⟨trimList s.data⟩

/-- Model of Go `strings.HasPrefix`. -/
def goStartsWith (s pre : String) : Bool := pre.data.isPrefixOf s.data

/-- Model of Go `strings.HasSuffix`. -/
def goEndsWith (s suf : String) : Bool := suf.data.isSuffixOf s.data

/-- Find the leftmost occurrence of `sep` in `s`: returns the part before the
occurrence and the part after it. `none` when `sep` does not occur. -/
def findSub : List Char → List Char → Option (List Char × List Char)
  | s, sep =>
    if sep.isPrefixOf s then some ([], s.drop sep.length)
    else
      match s with
      | [] => none
      | c :: rest => (findSub rest sep).map (fun pr => (c :: pr.1, pr.2))

/-- Fuelled splitting worker for `goSplit`. -/
def splitFuel (sep : List Char) : Nat → List Char → List (List Char)
  | 0, s => [s]
  | fuel + 1, s =>
    match findSub s sep with
    | none => [s]
    | some (pre, post) => pre :: splitFuel sep fuel post

/-- Model of Go `strings.Split` for a non-empty separator. -/
def goSplit (s sep : String) : List String :=
  (splitFuel sep.data (s.data.length + 1) s.data).map (⟨·⟩)

/-- Model of Go `strings.Contains` (for the non-empty separators used by the
sources). -/
def goContains (s sub : String) : Bool := (findSub s.data sub.data).isSome

/-- Model of the Go slice expression `v[1:]`. -/
def goDropFirst (s : String) : String := ⟨s.data.drop 1⟩

/-- Model of the Go slice expression `v[1 : len(v)-1]`.  (For the one-character
string consisting of a single quote Go would panic; the model returns `""`,
an input no claim depends on.) -/
def goDropBoth (s : String) : String := ⟨(s.data.drop 1).dropLast⟩

/-- Process environment, modelled as an association list; `goGetenv` models
`os.Getenv`, returning `""` for a missing key. -/
def goGetenv (env : List (String × String)) (key : String) : String :=
  match env.find? (fun p => p.1 == key) with
  | some p => p.2
  | none => ""

/- ## Condition evaluator (internal/runner/condition_evaluator.go) -/

/-- Model of `ConditionEvaluator.resolveValue`: trim, then `$NAME` resolves
through the environment, surrounding double or single quotes are stripped,
anything else is returned unchanged. -/
def resolveValue (env : List (String × String)) (value : String) : String :=
  let v := goTrim value
  if goStartsWith v "$" then goGetenv env (goDropFirst v)
  else if goStartsWith v "\"" && goEndsWith v "\"" then goDropBoth v
  else if goStartsWith v "'" && goEndsWith v "'" then goDropBoth v
  else v

/-- Model of `ConditionEvaluator.evaluateEquality`. -/
def evaluateEquality (env : List (String × String)) (condition : String) : Bool :=
  match goSplit condition "==" with
  | [l, r] => resolveValue env (goTrim l) == resolveValue env (goTrim r)
  | _ => false

/-- Model of `ConditionEvaluator.evaluateInequality`. -/
def evaluateInequality (env : List (String × String)) (condition : String) : Bool :=
  match goSplit condition "!=" with
  | [l, r] => resolveValue env (goTrim l) != resolveValue env (goTrim r)
  | _ => false

/-- Model of `ConditionEvaluator.evaluateVariable`. -/
def evaluateVariable (env : List (String × String)) (condition : String) : Bool :=
  let v := resolveValue env condition
  v != "" && v != "false" && v != "0"

/-- The per-part dispatch shared by `evaluateAnd` and `evaluateOr`: trim the
part, then try `==`, then `!=`, then standalone-variable evaluation. -/
def evalTerm (env : List (String × String)) (part : String) : Bool :=
  let p := goTrim part
  if goContains p "==" then evaluateEquality env p
  else if goContains p "!=" then evaluateInequality env p
  else evaluateVariable env p

/-- Model of `ConditionEvaluator.evaluateAnd`: split on `&&`, all parts true. -/
def evaluateAnd (env : List (String × String)) (condition : String) : Bool :=
  (goSplit condition "&&").all (evalTerm env)

/-- Model of `ConditionEvaluator.evaluateOr`: split on `||`, some part true. -/
def evaluateOr (env : List (String × String)) (condition : String) : Bool :=
  (goSplit condition "||").any (evalTerm env)

/-- Model of `ConditionEvaluator.EvaluateCondition`: empty means true,
otherwise trim and dispatch on `&&`, then `||`, then `==`, then `!=`, and
finally standalone-variable evaluation. -/
def evaluateCondition (env : List (String × String)) (condition : String) : Bool :=
  if condition == "" then true
  else
    let t := goTrim condition
    if goContains t "&&" then evaluateAnd env t
    else if goContains t "||" then evaluateOr env t
    else if goContains t "==" then evaluateEquality env t
    else if goContains t "!=" then evaluateInequality env t
    else evaluateVariable env t

/-- Character class of the Go regular expression `\w` (no Unicode flags). -/
def isWordChar (c : Char) : Bool := c.isAlpha || c.isDigit || c == '_'

/-- Character class of the Go regular expression `\s`: `[\t\n\f\r ]`. -/
def isRegexSpace (c : Char) : Bool :=
  c == '\t' || c == '\n' || c == '\x0c' || c == '\r' || c == ' '

/-- One character of the class `[\w\s\$"'=!&|]` used by `IsValidCondition`. -/
def isCondChar (c : Char) : Bool :=
  isWordChar c || isRegexSpace c || c == '$' || c == '"' || c == '\'' ||
    c == '=' || c == '!' || c == '&' || c == '|'

/-- Model of `ConditionEvaluator.IsValidCondition`: the empty condition is
valid, otherwise the condition must match `^[\w\s\$"'=!&|]+$`, i.e. every
character lies in the class. -/
def isValidCondition (condition : String) : Bool :=
  if condition == "" then true
  else condition.data.all isCondChar

/- ## Shell packager (internal/shell_commander/shell_commander.go and the
   legacy copy pkg/shell_commander/shell_commander.go) -/

/-- The fixed wrapper applied by `wrapCommand`: shebang plus a redirection of
stdout and stderr into `/shell_command_output.log`, then the command. -/
def wrapCommand (cmd : String) : String :=
  "#!/bin/sh\nexec > /shell_command_output.log 2>&1\n" ++ cmd

/-- Concatenation of the script lines, each terminated by a newline, as built
by the `soloExecution == false` branch. -/
def joinedLines (scripts : List String) : String :=
  scripts.foldl (fun acc cmd => acc ++ cmd ++ "\n") ""

/-- Model of the current `PrepareShellCommands`
(internal/shell_commander/shell_commander.go): empty scripts yield no
wrappers; solo execution wraps each line; otherwise one wrapper holds every
line joined by newlines. -/
def prepareShellCommands (soloExecution : Bool) (scripts : List String) : List String :=
  if scripts.length == 0 then []
  else if soloExecution then scripts.map wrapCommand
  else [wrapCommand (joinedLines scripts)]

/-- Model of the legacy `PrepareShellCommands`
(pkg/shell_commander/shell_commander.go), which lacks the empty-scripts
guard. -/
def pkgPrepareShellCommands (soloExecution : Bool) (scripts : List String) : List String :=
  if soloExecution then scripts.map wrapCommand
  else [wrapCommand (joinedLines scripts)]

/- ## Port parsing (internal/runner/parser.go, parsePortString) -/

/-- Port record: `out` is the host port, `in_` the container port. -/
structure Port where
  out : String
  in_ : String
  hostIP : String
  deriving DecidableEq, Repr

/-- Model of `parsePortString`: split on `:`; two parts give host and
container port with the default host IP, three parts give explicit host IP,
anything else falls back to the fixed default. -/
def parsePortString (portStr : String) : Port :=
  match goSplit portStr ":" with
  | [a, b] => { out := a, in_ := b, hostIP := "0.0.0.0" }
  | [h, a, b] => { hostIP := h, out := a, in_ := b }
  | _ => { out := "8080", in_ := "80", hostIP := "0.0.0.0" }

/- ## Job executor (internal/runner/runner.go) -/

/-- A Go error value: `none` is `nil`, `some msg` a non-nil error. -/
abbrev GoErr := Option String

/-- Observable operations performed by a job executor attempt, in order. -/
inductive Effect where
  | waitPrev
  | evalCond
  | buildImage
  | checkImage
  | pullImage
  | createContainer
  | copyWorkspace
  | startContainer
  | copyScript (i : Nat)
  | chmodScript (i : Nat)
  | execCmd (i : Nat)
  | killContainer
  | rmScript (i : Nat)
  | copyArtifact
  | stopContainer
  | removeContainer
  deriving DecidableEq, Repr

/-- Results the runtime adapter returns for the calls made while executing one
wrapped script (one iteration of `commandScriptExecutor`): the tar copy, the
`chmod +x` exec, the script run (`Except.error` is an adapter error,
`Except.ok code` an exit code), the stop/remove performed on a non-zero exit,
and the `rm` of the staged script. -/
structure CmdWorld where
  copyTar : GoErr
  chmodRes : GoErr
  runRes : Except String Int
  stopFail : GoErr
  removeFail : GoErr
  rmRes : GoErr

/-- Results the runtime adapter returns for the calls a single `jobRunner`
attempt makes.  Container configuration data (ports, env) does not influence
control flow and is absorbed by this oracle. -/
structure JobWorld where
  buildImage : GoErr
  checkImage : Except String Bool
  pullImage : GoErr
  create : Except String String
  copyWorkspace : GoErr
  startC : GoErr
  cmd : Nat → CmdWorld
  copyArtifact : GoErr
  stopC : GoErr
  removeC : GoErr

/-- The job attributes that influence `jobRunner` control flow.
`previous = none` models `Previous == nil`; `previous = some e` models a
predecessor whose completion channel delivers the terminal outcome `e`. -/
structure MJob where
  previous : Option GoErr
  isParallel : Bool
  condition : String
  dockerfile : String
  image : String
  copyFiles : Bool
  soloExecution : Bool
  script : List String
  artifactPath : String

/-- One iteration of `commandScriptExecutor` for the `i`-th wrapped script:
tar+copy, `chmod +x`, run the script (non-zero exit triggers log fetch, kill,
stop, remove and the "command execution failed" error), then remove the
staged script. -/
def runCmd (w : CmdWorld) (i : Nat) : GoErr × List Effect :=
  match w.copyTar with
  | some e => (some e, [.copyScript i])
  | none =>
    match w.chmodRes with
    | some e => (some e, [.copyScript i, .chmodScript i])
    | none =>
      match w.runRes with
      | .error e => (some e, [.copyScript i, .chmodScript i, .execCmd i])
      | .ok code =>
        if code ≠ 0 then
          match w.stopFail with
          | some e =>
              (some e, [.copyScript i, .chmodScript i, .execCmd i, .killContainer,
                .stopContainer])
          | none =>
            match w.removeFail with
            | some e =>
                (some e, [.copyScript i, .chmodScript i, .execCmd i, .killContainer,
                  .stopContainer, .removeContainer])
            | none =>
                (some "command execution failed",
                  [.copyScript i, .chmodScript i, .execCmd i, .killContainer,
                    .stopContainer, .removeContainer])
        else
          match w.rmRes with
          | some e =>
              (some e, [.copyScript i, .chmodScript i, .execCmd i, .rmScript i])
          | none =>
              (none, [.copyScript i, .chmodScript i, .execCmd i, .rmScript i])

/-- Loop of `commandScriptExecutor` over the wrapped scripts, stopping at the
first error. -/
def execLoop (w : Nat → CmdWorld) : Nat → List String → GoErr × List Effect
  | _, [] => (none, [])
  | i, _ :: rest =>
    match runCmd (w i) i with
    | (some e, tr) => (some e, tr)
    | (none, tr) =>
      match execLoop w (i + 1) rest with
      | (r, tr2) => (r, tr ++ tr2)

/-- Model of `commandScriptExecutor`: wrap the script lines and execute each
wrapper in turn. -/
def commandScriptExecutor (j : MJob) (w : Nat → CmdWorld) : GoErr × List Effect :=
  execLoop w 0 (prepareShellCommands j.soloExecution j.script)

/-- Sequencing of two executor steps: an error in the first step returns
immediately (the Go early `return` after sending on the error channel),
otherwise the second step runs and the traces are concatenated. -/
def seqStep (a : GoErr × List Effect) (next : Unit → GoErr × List Effect) :
    GoErr × List Effect :=
  match a with
  | (some e, tr) => (some e, tr)
  | (none, tr) =>
    match next () with
    | (r, tr2) => (r, tr ++ tr2)

/-- Image provisioning: build from a Dockerfile when one is set, otherwise
check the image and pull it when absent, otherwise fail with the
configuration error. -/
def provisionStep (j : MJob) (w : JobWorld) : GoErr × List Effect :=
  if j.dockerfile ≠ "" then
    match w.buildImage with
    | some e => (some e, [.buildImage])
    | none => (none, [.buildImage])
  else if j.image ≠ "" then
    match w.checkImage with
    | .error e => (some e, [.checkImage])
    | .ok available =>
      if !available then
        match w.pullImage with
        | some e => (some e, [.checkImage, .pullImage])
        | none => (none, [.checkImage, .pullImage])
      else (none, [.checkImage])
  else (some "either 'image' or 'dockerfile' must be specified", [])

/-- `StartContainer` (container create). -/
def createStep (w : JobWorld) : GoErr × List Effect :=
  match w.create with
  | .error e => (some e, [.createContainer])
  | .ok _ => (none, [.createContainer])

/-- Workspace copy-in, performed only when `copyFiles` is set. -/
def copyFilesStep (j : MJob) (w : JobWorld) : GoErr × List Effect :=
  if j.copyFiles then
    match w.copyWorkspace with
    | some e => (some e, [.copyWorkspace])
    | none => (none, [.copyWorkspace])
  else (none, [])

/-- `ContainerStart`. -/
def startStep (w : JobWorld) : GoErr × List Effect :=
  match w.startC with
  | some e => (some e, [.startContainer])
  | none => (none, [.startContainer])

/-- Artifact copy-out, performed only when `artifactPath` is set. -/
def artifactStep (j : MJob) (w : JobWorld) : GoErr × List Effect :=
  if j.artifactPath ≠ "" then
    match w.copyArtifact with
    | some e => (some e, [.copyArtifact])
    | none => (none, [.copyArtifact])
  else (none, [])

/-- `StopContainer`. -/
def stopStep (w : JobWorld) : GoErr × List Effect :=
  match w.stopC with
  | some e => (some e, [.stopContainer])
  | none => (none, [.stopContainer])

/-- `RemoveContainer`. -/
def removeStep (w : JobWorld) : GoErr × List Effect :=
  match w.removeC with
  | some e => (some e, [.removeContainer])
  | none => (none, [.removeContainer])

/-- The error-short-circuiting chain of runtime steps a `jobRunner` attempt
performs once the condition gate has passed: provisioning, container create,
optional workspace copy, container start, script execution, optional
artifact copy, stop, remove. -/
def jobSteps (j : MJob) (w : JobWorld) : GoErr × List Effect :=
  seqStep (provisionStep j w) (fun _ =>
    seqStep (createStep w) (fun _ =>
      seqStep (copyFilesStep j w) (fun _ =>
        seqStep (startStep w) (fun _ =>
          seqStep (commandScriptExecutor j w.cmd) (fun _ =>
            seqStep (artifactStep j w) (fun _ =>
              seqStep (stopStep w) (fun _ => removeStep w)))))))

/-- The `jobRunner` body after the predecessor wait: condition gate followed
by the runtime step chain.  The first component is the value sent on the
job's error channel. -/
def jobBody (env : List (String × String)) (j : MJob) (w : JobWorld) :
    GoErr × List Effect :=
  if j.condition ≠ "" && !evaluateCondition env j.condition then
    (none, [.evalCond])
  else
    ((jobSteps j w).1,
      (if j.condition ≠ "" then [Effect.evalCond] else []) ++ (jobSteps j w).2)

/-- Model of `jobRunner`: when the job has a predecessor link and is not
parallel it first awaits the predecessor's terminal outcome; a failed
predecessor makes the job signal `nil` immediately without doing anything
else. -/
def jobRunner (env : List (String × String)) (j : MJob) (w : JobWorld) :
    GoErr × List Effect :=
  match j.previous, j.isParallel with
  | some prevOutcome, false =>
    if prevOutcome.isSome then (none, [.waitPrev])
    else
      match jobBody env j w with
      | (r, tr) => (r, .waitPrev :: tr)
  | _, _ => jobBody env j w

/- ## Retry wrapper (internal/runner/runner.go, jobRunnerWithRetry) -/

/-- Model of the retry policy; the Go `float64` backoff multiplier is
modelled by an exact rational. -/
structure RetryConfig where
  maxAttempts : Nat
  delaySeconds : Nat
  backoffMultiplier : ℚ

/-- Go conversion of a `float64` to `int64` (as performed by the
`time.Duration(...)` cast): truncation toward zero.  The float value itself
is modelled by an exact rational. -/
def goFloatToInt64 (q : ℚ) : ℤ := if 0 ≤ q then ⌊q⌋ else -⌊-q⌋

/-- The back-off sleep performed after failed attempt `attempt`, in whole
seconds.  The source computes
`time.Duration(float64(DelaySeconds) * math.Pow(BackoffMultiplier, attempt-1)) * time.Second`:
the product is truncated toward zero by the float-to-`Duration` conversion
and only then scaled to seconds, so the fractional part of
`delay * backoff^(attempt-1)` is dropped. -/
def retryDelay (cfg : RetryConfig) (attempt : Nat) : ℤ :=
  goFloatToInt64 ((cfg.delaySeconds : ℚ) * cfg.backoffMultiplier ^ (attempt - 1))

/-- Whether a `jobRunner` invocation for this job reads the predecessor's
completion channel (`Previous != nil && !IsParallel`). -/
def gatesOnPrev (j : MJob) : Bool := j.previous.isSome && !j.isParallel

/-- Terminal behaviour of the retry wrapper: either the job signals an
outcome on its channel after the recorded attempt traces and sleeps, or it
blocks forever — an attempt re-executes the read of the predecessor's
single-slot completion channel after an earlier attempt has already drained
it — with the attempts and sleeps performed up to that point. -/
inductive RetryOutcome where
  | signalled (outcome : GoErr) (attempts : List (List Effect)) (sleeps : List ℤ)
  | blockedForever (attempts : List (List Effect)) (sleeps : List ℤ)
  deriving DecidableEq, Repr

/-- The attempt traces recorded in a retry outcome. -/
def RetryOutcome.attempts : RetryOutcome → List (List Effect)
  | .signalled _ trs _ => trs
  | .blockedForever trs _ => trs

/-- Worker for `jobRunnerWithRetry`.  `attempt` is the 1-based attempt
counter, `remaining` the number of attempts still allowed (`remaining = 1`
is the last) and `prevFull` whether the predecessor's single-slot completion
channel still holds its value.  Every attempt runs `jobRunner` on a copy of
the job, so a gating job re-executes the channel read each attempt: the
first gating attempt drains the channel and any later gating attempt blocks
forever before performing any step. -/
def retryAux (env : List (String × String)) (j : MJob) (worlds : Nat → JobWorld)
    (cfg : RetryConfig) : Nat → Nat → Bool → RetryOutcome
  | _, 0, _ => .signalled none [] []
  | attempt, remaining + 1, prevFull =>
    if gatesOnPrev j && !prevFull then .blockedForever [] []
    else
      match jobRunner env j (worlds attempt) with
      | (none, tr) => .signalled none [tr] []
      | (some e, tr) =>
        if remaining = 0 then .signalled (some e) [tr] []
        else
          match retryAux env j worlds cfg (attempt + 1) remaining
              (prevFull && !(gatesOnPrev j)) with
          | .signalled res trs ds =>
              .signalled res (tr :: trs) (retryDelay cfg attempt :: ds)
          | .blockedForever trs ds =>
              .blockedForever (tr :: trs) (retryDelay cfg attempt :: ds)

/-- Model of `jobRunnerWithRetry`: run `jobRunner` on a fresh copy of the
job up to `maxAttempts` times, sleeping `retryDelay` whole seconds between
failed attempts; the first success or the last failure is signalled on the
job's channel, and a gating attempt that finds the predecessor channel
already drained blocks forever, so nothing is ever signalled.
(`maxAttempts ≥ 1` always holds for parsed configurations.) -/
def jobRunnerWithRetry (env : List (String × String)) (j : MJob)
    (worlds : Nat → JobWorld) (cfg : RetryConfig) : RetryOutcome :=
  retryAux env j worlds cfg 1 cfg.maxAttempts true

/- ## Predecessor assignment (internal/runner/parser.go, parse) -/

/-- Model of the predecessor assignment performed by `parse`: writing
`pars` for the list of `parallel` flags in workflow order, job `i` gets job
`i-1` as its `Previous` exactly when `i > 0` and
`!job[i].IsParallel || !job[i-1].IsParallel`. -/
def parsePrev (pars : List Bool) (i : Nat) : Option Nat :=
  if 0 < i ∧ i < pars.length ∧ (!(pars.getD i false) || !(pars.getD (i - 1) false)) then
    some (i - 1)
  else none

/- ## Copy-in walk (internal/container_manager/container_manager.go, appender) -/

/-- Outcome of one `appender` invocation during `filepath.Walk`: continue
(`return nil`), prune the directory (`return filepath.SkipDir`), or write the
entry into the archive. -/
inductive WalkAction where
  | cont
  | skipDir
  | write
  deriving DecidableEq, Repr

/-- The regular-expression engine behind `regexp.MatchString`, abstracted as
an oracle: `matcher pattern name` is `none` when compiling or matching
errors, otherwise `some b` with `b` the unanchored-search result. -/
abbrev Matcher := String → String → Option Bool

/-- The ignore loop of `appender` over `copyIgnore`: the entry is dropped
(`return nil`) as soon as a pattern matches its tar-entry name or the match
returns an error. -/
def matchLoop (m : Matcher) (ignore : List String) (entryName : String) : Bool :=
  match ignore with
  | [] => false
  | p :: ps =>
    match m p entryName with
    | none => true
    | some true => true
    | some false => matchLoop m ps entryName

/-- One `appender` call.  `isDir` is `info.IsDir()` (equivalently the negation
of `info.Mode().IsRegular()` for the file trees modelled here), `base` is
`info.Name()` and `entryName` the computed slash-relative tar-entry name.
The `skipDir` branch mirrors the source faithfully: it tests
`info.IsDir() && info.Name() == ignore`, but it is placed after the
`!info.Mode().IsRegular()` early return, which has already returned for every
directory. -/
def appenderVisit (m : Matcher) (ignore : List String) (isDir : Bool)
    (base entryName : String) : WalkAction :=
  if isDir then .cont
  else if isDir && ignore.contains base then .skipDir
  else if matchLoop m ignore entryName then .cont
  else .write

/-- A host directory forest: a sequence of regular files and directories.
Encoded with an explicit cons structure so that every recursion below is
structural. -/
inductive Fs where
  | leaf : Fs
  | fileCons (name : String) (rest : Fs) : Fs
  | dirCons (name : String) (children : Fs) (rest : Fs) : Fs
  deriving DecidableEq, Repr

/-- The `filepath.Walk` of `CopyToContainer` combined with `appender`:
collects, in walk order, the tar-entry names actually written to the
archive.  `pre` is the slash-terminated relative path of the enclosing
directory. -/
def walkEntries (m : Matcher) (ignore : List String) (pre : String) :
    Fs → List String
  | .leaf => []
  | .fileCons name rest =>
    (match appenderVisit m ignore false name (pre ++ name) with
      | .write => [pre ++ name]
      | _ => []) ++ walkEntries m ignore pre rest
  | .dirCons name children rest =>
    (match appenderVisit m ignore true name (pre ++ name) with
      | .skipDir => []
      | _ => walkEntries m ignore (pre ++ name ++ "/") children) ++
      walkEntries m ignore pre rest

/-- The archive uploaded by copy-in for a host working directory whose
contents are `root`. -/
def archiveEntries (m : Matcher) (ignore : List String) (root : Fs) :
    List String :=
  walkEntries m ignore "" root

/- ## Event broadcaster (internal/sse/event_broadcaster.go) -/

/-- Broadcaster state: the subscriber table (client ids in registration
order; the uuid oracle supplies fresh ids) and the closed flag. -/
structure BState where
  clients : List String
  closed : Bool
  deriving DecidableEq, Repr

/-- `NewEventBroadcaster`. -/
def newBroadcaster : BState := { clients := [], closed := false }

/-- One operation on the broadcaster.  `add newId sinkAccepts` models
`AddClient` where `newId` is the uuid generated for the subscriber and
`sinkAccepts` whether its channel can take the welcome event;
`broadcast accepts` models `Broadcast` where `accepts id` says whether the
subscriber's channel can take the event without blocking. -/
inductive BOp where
  | add (newId : String) (sinkAccepts : Bool)
  | remove (id : String)
  | broadcast (accepts : String → Bool)
  | close

/-- What one operation returns to its caller: the id `AddClient` returned
(if the operation was an `add`) and the ids of the subscribers that were
delivered an event. -/
structure BOut where
  returnedId : Option String
  delivered : List String

/-- Transition function of the broadcaster.  `add` on a closed broadcaster
returns `""` without touching the table or delivering anything; otherwise it
registers the id and try-sends the connection event, deregistering on a full
sink.  `broadcast` on a closed broadcaster delivers nothing; otherwise it
try-sends to every subscriber (slow subscribers are scheduled for removal
asynchronously, which surfaces as later `remove` operations).  `close` sets
the closed flag and empties the table. -/
def bStep (s : BState) : BOp → BState × BOut
  | .add newId sinkAccepts =>
    if s.closed then (s, { returnedId := some "", delivered := [] })
    else if sinkAccepts then
      ({ s with clients := s.clients ++ [newId] },
        { returnedId := some newId, delivered := [newId] })
    else (s, { returnedId := some "", delivered := [] })
  | .remove id =>
    ({ s with clients := s.clients.filter (fun c => c ≠ id) },
      { returnedId := none, delivered := [] })
  | .broadcast accepts =>
    if s.closed then (s, { returnedId := none, delivered := [] })
    else (s, { returnedId := none, delivered := s.clients.filter accepts })
  | .close =>
    ({ clients := [], closed := true }, { returnedId := none, delivered := [] })

/-- Run a sequence of operations, returning the final state. -/
def bRun (s : BState) : List BOp → BState
  | [] => s
  | op :: ops => bRun (bStep s op).1 ops

/-- `GetClientCount`. -/
def getClientCount (s : BState) : Nat := s.clients.length

/- ## Concrete instances used in the theorems -/

/-- Adapter results for one wrapped script where every call succeeds and the
script exits 0. -/
def cmdOk : CmdWorld :=
  { copyTar := none, chmodRes := none, runRes := .ok 0, stopFail := none,
    removeFail := none, rmRes := none }

/-- Adapter results where every call succeeds but the script exits 1. -/
def cmdFailExit : CmdWorld := { cmdOk with runRes := .ok 1 }

/-- A run in which every runtime-adapter call succeeds. -/
def wAllGood : JobWorld :=
  { buildImage := none, checkImage := .ok true, pullImage := none,
    create := .ok "cid", copyWorkspace := none, startC := none,
    cmd := fun _ => cmdOk, copyArtifact := none, stopC := none,
    removeC := none }

/-- A run in which everything succeeds except that every script exits 1. -/
def wExecFail : JobWorld := { wAllGood with cmd := fun _ => cmdFailExit }

/-- A parallel job whose designated predecessor link is set and whose
predecessor signalled the failure "boom". -/
def jParFail : MJob :=
  { previous := some (some "boom"), isParallel := true, condition := "",
    dockerfile := "", image := "alpine", copyFiles := false,
    soloExecution := false, script := ["echo hi"], artifactPath := "" }

/-- A non-parallel job whose predecessor succeeded. -/
def jGate : MJob := { jParFail with isParallel := false, previous := some none }

/-- A non-parallel job whose predecessor signalled "boom". -/
def jSkip : MJob := { jParFail with isParallel := false }

/-- A job without predecessor whose condition contains the character `;`,
which lies outside the class `[\w\s\$"'=!&|]`. -/
def jBadCond : MJob :=
  { jParFail with previous := none, isParallel := false, condition := "a;b" }

/-- A job without predecessor whose condition refers to an unset variable and
therefore evaluates to false. -/
def jCondFalse : MJob :=
  { jParFail with previous := none, isParallel := false, condition := "$MISSING" }

/-- A job without predecessor used for the retry counting argument. -/
def jAlwaysFail : MJob :=
  { jParFail with
    previous := none, isParallel := false, image := "img", script := ["boom"] }

/-- A gating job — predecessor link set, predecessor succeeded, not
parallel — whose script always fails. -/
def jGateFail : MJob := { jAlwaysFail with previous := some none }

/-- The effect trace of one failing attempt of `jAlwaysFail` under
`wExecFail`. -/
def c2FailTrace : List Effect :=
  [.checkImage, .createContainer, .startContainer, .copyScript 0,
    .chmodScript 0, .execCmd 0, .killContainer, .stopContainer,
    .removeContainer]

/-- A matcher for which the ignore pattern "(" is an invalid regular
expression (every match attempt errors) and every other pattern matches
nothing. -/
def errMatcher : Matcher := fun p _ => if p == "(" then none else some false

/-- A matcher implementing the semantics of the regular expression `a$`
(unanchored search: the name ends with the character a); every other pattern
matches nothing. -/
def endsAMatcher : Matcher :=
  fun p name => if p == "a$" then some (goEndsWith name "a") else some false

/-- A working directory containing the directory `a$` with the single file
`b.txt` inside it. -/
def fsC6 : Fs := .dirCons "a$" (.fileCons "b.txt" .leaf) .leaf

/-- A working directory with a file `README.md` and a directory `src`
containing `main.go`. -/
def fsC9 : Fs := .dirCons "src" (.fileCons "main.go" .leaf) (.fileCons "README.md" .leaf)

/-- The broadcaster is closed and its subscriber table is empty. -/
def closedEmpty (s : BState) : Prop := s.closed = true ∧ s.clients = []

/- ## Helper lemmas -/

theorem closedEmpty_bStep (s : BState) (op : BOp) (h : closedEmpty s) :
    closedEmpty ((bStep s op).1) := by
  obtain ⟨hc, hcl⟩ := h
  cases op with
  | add newId sinkAccepts => simp [bStep, hc, closedEmpty, hcl]
  | remove id => simp [bStep, closedEmpty, hc, hcl]
  | broadcast accepts => simp [bStep, hc, closedEmpty, hcl]
  | close => simp [bStep, closedEmpty]

theorem closedEmpty_bRun (ops : List BOp) :
    ∀ s : BState, closedEmpty s → closedEmpty (bRun s ops) := by
  induction ops with
  | nil => intro s h; exact h
  | cons op rest ih => intro s h; exact ih _ (closedEmpty_bStep s op h)

theorem bStep_add_closed (t : BState) (h : t.closed = true)
    (newId : String) (sinkAccepts : Bool) :
    bStep t (.add newId sinkAccepts) = (t, { returnedId := some "", delivered := [] }) := by
  simp [bStep, h]

theorem bStep_broadcast_closed (t : BState) (h : t.closed = true)
    (accepts : String → Bool) :
    bStep t (.broadcast accepts) = (t, { returnedId := none, delivered := [] }) := by
  simp [bStep, h]

/- ## C10 -/

/-- C10: after `Close()` the closed flag stays set and the subscriber table
stays empty under any further sequence of operations; in that state
`AddClient` returns the empty string without registering the sink or
delivering a connection event, `Broadcast` delivers nothing, and
`GetClientCount` returns 0. -/
theorem c10_broadcaster_closed_forever (s : BState) (ops : List BOp) :
    closedEmpty (bRun (bStep s .close).1 ops)
    ∧ (∀ newId sinkAccepts,
        bStep (bRun (bStep s .close).1 ops) (.add newId sinkAccepts) =
          (bRun (bStep s .close).1 ops, { returnedId := some "", delivered := [] }))
    ∧ (∀ accepts,
        bStep (bRun (bStep s .close).1 ops) (.broadcast accepts) =
          (bRun (bStep s .close).1 ops, { returnedId := none, delivered := [] }))
    ∧ getClientCount (bRun (bStep s .close).1 ops) = 0 := by
  have hclosed : closedEmpty (bRun (bStep s .close).1 ops) := by
    apply closedEmpty_bRun
    simp [bStep, closedEmpty]
  obtain ⟨hc, hcl⟩ := hclosed
  refine ⟨⟨hc, hcl⟩, ?_, ?_, ?_⟩
  · intro newId sinkAccepts
    exact bStep_add_closed _ hc newId sinkAccepts
  · intro accepts
    exact bStep_broadcast_closed _ hc accepts
  · simp [getClientCount, hcl]

/- ## C8 -/

/-- C8: `parsePortString` is total and never reports an error: a two-part
split yields host IP `0.0.0.0` with host and container ports from the parts,
a three-part split takes the host IP from the first part, and any other
shape silently falls back to the fixed default `0.0.0.0:8080:80`. -/
theorem c8_parsePortString_total (s : String) :
    (∀ a b, goSplit s ":" = [a, b] →
      parsePortString s = { out := a, in_ := b, hostIP := "0.0.0.0" })
    ∧ (∀ h a b, goSplit s ":" = [h, a, b] →
      parsePortString s = { hostIP := h, out := a, in_ := b })
    ∧ ((goSplit s ":").length ≠ 2 → (goSplit s ":").length ≠ 3 →
      parsePortString s = { out := "8080", in_ := "80", hostIP := "0.0.0.0" }) := by
  refine ⟨?_, ?_, ?_⟩
  · intro a b hsplit
    simp [parsePortString, hsplit]
  · intro h a b hsplit
    simp [parsePortString, hsplit]
  · intro h2 h3
    unfold parsePortString
    match hs : goSplit s ":" with
    | [] => rfl
    | [a] => rfl
    | [a, b] => rw [hs] at h2; simp at h2
    | [a, b, c] => rw [hs] at h3; simp at h3
    | a :: b :: c :: d :: rest => rfl

/-- Witness for C8 at the three concrete shapes. -/
theorem c8_witness :
    parsePortString "8080:80" = { out := "8080", in_ := "80", hostIP := "0.0.0.0" }
    ∧ parsePortString "127.0.0.1:8080:80" =
        { hostIP := "127.0.0.1", out := "8080", in_ := "80" }
    ∧ parsePortString "9000" = { out := "8080", in_ := "80", hostIP := "0.0.0.0" } :=
  ⟨(c8_parsePortString_total "8080:80").1 "8080" "80" (by decide),
   (c8_parsePortString_total "127.0.0.1:8080:80").2.1 "127.0.0.1" "8080" "80" (by decide),
   (c8_parsePortString_total "9000").2.2 (by decide) (by decide)⟩

/- ## C4 -/

theorem joinedLines_eq_join (L : List String) :
    joinedLines L = String.join (L.map (fun l => l ++ "\n")) := by
  unfold joinedLines String.join
  rw [List.foldl_map]
  have hfun : (fun (r : String) (y : String) => r ++ (y ++ "\n")) =
      (fun (acc : String) (cmd : String) => acc ++ cmd ++ "\n") := by
    funext r y
    rw [String.append_assoc]
  rw [hfun]

/-- C4: the current `PrepareShellCommands`
(internal/shell_commander/shell_commander.go) satisfies the claim: empty
input yields the empty list for either solo flag, solo execution yields one
wrapper per line consisting of the fixed prefix followed by exactly that
line, and non-solo execution yields a single wrapper with every line
newline-terminated in order.  The legacy copy
(pkg/shell_commander/shell_commander.go), also cited by the claim, lacks the
empty-scripts guard: on `solo = false` with no script lines it returns one
wrapper holding only the fixed prefix, contradicting both the claim and that
package's own test, which expects the empty list. -/
theorem c4_prepare_shell_commands :
    (∀ solo : Bool, prepareShellCommands solo [] = [])
    ∧ (∀ L : List String, prepareShellCommands true L =
        L.map (fun line =>
          "#!/bin/sh\nexec > /shell_command_output.log 2>&1\n" ++ line))
    ∧ (∀ (line : String) (rest : List String),
        prepareShellCommands false (line :: rest) =
          ["#!/bin/sh\nexec > /shell_command_output.log 2>&1\n" ++
            String.join ((line :: rest).map (fun l => l ++ "\n"))])
    ∧ pkgPrepareShellCommands false [] =
        ["#!/bin/sh\nexec > /shell_command_output.log 2>&1\n"]
    ∧ pkgPrepareShellCommands true [] = [] := by
  refine ⟨?_, ?_, ?_, ?_, ?_⟩
  · intro solo
    simp [prepareShellCommands]
  · intro L
    cases L with
    | nil => simp [prepareShellCommands]
    | cons x xs => simp [prepareShellCommands, wrapCommand]
  · intro line rest
    simp [prepareShellCommands, wrapCommand, joinedLines_eq_join]
  · decide
  · decide

/- ## Walk lemmas for C6 and C9 -/

theorem matchLoop_error_pattern (m : Matcher) (entryName : String) :
    ∀ (ignore : List String) (p : String), p ∈ ignore → m p entryName = none →
      matchLoop m ignore entryName = true := by
  intro ignore
  induction ignore with
  | nil => intro p hp _; simp at hp
  | cons q ps ih =>
    intro p hp herr
    unfold matchLoop
    cases hm : m q entryName with
    | none => rfl
    | some b =>
      cases b with
      | true => rfl
      | false =>
        rcases List.mem_cons.mp hp with heq | htail
        · subst heq; rw [hm] at herr; exact absurd herr (by simp)
        · exact ih p htail herr

theorem matchLoop_false_no_match (m : Matcher) (entryName : String) :
    ∀ ignore : List String, matchLoop m ignore entryName = false →
      ∀ p ∈ ignore, m p entryName = some false := by
  intro ignore
  induction ignore with
  | nil => intro _ p hp; simp at hp
  | cons q ps ih =>
    intro hml p hp
    unfold matchLoop at hml
    cases hm : m q entryName with
    | none => rw [hm] at hml; simp at hml
    | some b =>
      cases b with
      | true => rw [hm] at hml; simp at hml
      | false =>
        rw [hm] at hml
        rcases List.mem_cons.mp hp with heq | htail
        · subst heq; exact hm
        · exact ih hml p htail

theorem appenderVisit_file_write_iff (m : Matcher) (ignore : List String)
    (base entryName : String) :
    appenderVisit m ignore false base entryName = .write ↔
      matchLoop m ignore entryName = false := by
  unfold appenderVisit
  simp only [Bool.false_and, if_false]
  cases hml : matchLoop m ignore entryName <;> simp [hml]

theorem walkEntries_empty_of_error_pattern (m : Matcher) (ignore : List String)
    (p : String) (hp : p ∈ ignore) (herr : ∀ name, m p name = none) :
    ∀ (fs : Fs) (pre : String), walkEntries m ignore pre fs = [] := by
  intro fs
  induction fs with
  | leaf => intro pre; rfl
  | fileCons name rest ih =>
    intro pre
    unfold walkEntries
    rw [ih pre]
    have hml : matchLoop m ignore (pre ++ name) = true :=
      matchLoop_error_pattern m (pre ++ name) ignore p hp (herr (pre ++ name))
    simp [appenderVisit, hml]
  | dirCons name children rest ih1 ih2 =>
    intro pre
    unfold walkEntries
    rw [ih1 (pre ++ name ++ "/"), ih2 pre]
    simp [appenderVisit]

theorem mem_walkEntries_not_matched (m : Matcher) (ignore : List String) :
    ∀ (fs : Fs) (pre entry : String), entry ∈ walkEntries m ignore pre fs →
      matchLoop m ignore entry = false := by
  intro fs
  induction fs with
  | leaf => intro pre entry h; simp [walkEntries] at h
  | fileCons name rest ih =>
    intro pre entry h
    unfold walkEntries at h
    rcases List.mem_append.mp h with hl | hr
    · revert hl
      match hv : appenderVisit m ignore false name (pre ++ name) with
      | .cont => simp
      | .skipDir => simp
      | .write =>
        intro hl
        have : entry = pre ++ name := by simpa using hl
        subst this
        exact (appenderVisit_file_write_iff m ignore name (pre ++ name)).mp hv
    · exact ih pre entry hr
  | dirCons name children rest ih1 ih2 =>
    intro pre entry h
    unfold walkEntries at h
    rcases List.mem_append.mp h with hl | hr
    · revert hl
      match hv : appenderVisit m ignore true name (pre ++ name) with
      | .cont => exact ih1 (pre ++ name ++ "/") entry
      | .skipDir => simp
      | .write => exact ih1 (pre ++ name ++ "/") entry
    · exact ih2 pre entry hr

/- ## C9 -/

/-- C9: if some pattern of the ignore list errors on every match attempt (in
particular, if it is a syntactically invalid regular expression), then the
copy-in walk writes no file at all into the uploaded archive, because the
`err != nil || matched` test in `appender` drops an entry on a match error
exactly as on a match. -/
theorem c9_invalid_pattern_empty_archive (m : Matcher) (ignore : List String)
    (root : Fs) (p : String) (hp : p ∈ ignore) (herr : ∀ name, m p name = none) :
    archiveEntries m ignore root = [] :=
  walkEntries_empty_of_error_pattern m ignore p hp herr root ""

/-- Witness for C9: the invalid pattern `(` makes the archive of a two-file
tree empty. -/
theorem c9_witness : archiveEntries errMatcher ["("] fsC9 = [] :=
  c9_invalid_pattern_empty_archive errMatcher ["("] fsC9 "(" (by decide)
    (fun _ => rfl)

/- ## C6 -/

/-- C6: files whose tar-entry names match an ignore pattern never reach the
archive, and the `filepath.SkipDir` branch of `appender` is unreachable (the
`!info.Mode().IsRegular()` early return fires first for every directory), so
a directory whose basename equals an ignore entry is not skipped: at the
concrete failing input, ignore list `["a$"]` and a directory named `a$`
containing `b.txt`, the file `a$/b.txt` is still uploaded even though the
directory basename equals the ignore entry. -/
theorem c6_ignore_semantics :
    (∀ (m : Matcher) (ignore : List String) (fs : Fs) (pre entry : String),
      entry ∈ walkEntries m ignore pre fs → ∀ p ∈ ignore, ¬ m p entry = some true)
    ∧ (∀ (m : Matcher) (ignore : List String) (isDir : Bool) (base entry : String),
      appenderVisit m ignore isDir base entry ≠ .skipDir)
    ∧ archiveEntries endsAMatcher ["a$"] fsC6 = ["a$/b.txt"] := by
  refine ⟨?_, ?_, ?_⟩
  · intro m ignore fs pre entry hmem p hp hmatch
    have hml := mem_walkEntries_not_matched m ignore fs pre entry hmem
    have := matchLoop_false_no_match m entry ignore hml p hp
    rw [this] at hmatch
    simp at hmatch
  · intro m ignore isDir base entry
    unfold appenderVisit
    cases isDir with
    | true => simp
    | false =>
      simp only [Bool.false_and, if_false]
      cases matchLoop m ignore entry <;> simp
  · decide

/-- Witness for C6 at a concrete exclusion: the file `a$/b.txt` that the walk
uploads is matched by no pattern of the ignore list. -/
theorem c6_witness : ¬ endsAMatcher "a$" "a$/b.txt" = some true :=
  c6_ignore_semantics.1 endsAMatcher ["a$"] fsC6 "" "a$/b.txt" (by decide)
    "a$" (by decide)

/- ## Executor trace lemmas -/

theorem waitPrev_not_mem_runCmd (w : CmdWorld) (i : Nat) :
    Effect.waitPrev ∉ (runCmd w i).2 := by
  unfold runCmd
  rcases w with ⟨ct, ch, rr, sf, rf, rmr⟩
  rcases ct with _ | e1 <;> rcases ch with _ | e2 <;> rcases rr with e3 | code <;>
    rcases sf with _ | e4 <;> rcases rf with _ | e5 <;> rcases rmr with _ | e6 <;>
      dsimp only <;> (try split) <;> simp

theorem waitPrev_not_mem_execLoop (w : Nat → CmdWorld) :
    ∀ (l : List String) (i : Nat), Effect.waitPrev ∉ (execLoop w i l).2 := by
  intro l
  induction l with
  | nil => intro i; simp [execLoop]
  | cons x xs ih =>
    intro i
    unfold execLoop
    cases hr : runCmd (w i) i with
    | mk r tr =>
      have hnr : Effect.waitPrev ∉ tr := by
        have := waitPrev_not_mem_runCmd (w i) i
        rw [hr] at this
        exact this
      cases r with
      | some e => simpa using hnr
      | none =>
        cases hl : execLoop w (i + 1) xs with
        | mk r2 tr2 =>
          have hnr2 : Effect.waitPrev ∉ tr2 := by
            have := ih (i + 1)
            rw [hl] at this
            exact this
          simp [List.mem_append, hnr, hnr2]

theorem waitPrev_not_mem_seqStep (a : GoErr × List Effect)
    (b : Unit → GoErr × List Effect) (ha : Effect.waitPrev ∉ a.2)
    (hb : Effect.waitPrev ∉ (b ()).2) :
    Effect.waitPrev ∉ (seqStep a b).2 := by
  unfold seqStep
  rcases a with ⟨r, tr⟩
  cases r with
  | some e => exact ha
  | none =>
    cases hb2 : b () with
    | mk r2 tr2 =>
      rw [hb2] at hb
      simp only [hb2]
      simp [List.mem_append, hb]
      intro hmem
      exact absurd hmem ha

theorem waitPrev_not_mem_provisionStep (j : MJob) (w : JobWorld) :
    Effect.waitPrev ∉ (provisionStep j w).2 := by
  unfold provisionStep
  split
  · cases w.buildImage <;> simp
  · split
    · split
      · simp
      · split
        · split <;> simp
        · simp
    · simp

theorem waitPrev_not_mem_jobSteps (j : MJob) (w : JobWorld) :
    Effect.waitPrev ∉ (jobSteps j w).2 := by
  unfold jobSteps
  refine waitPrev_not_mem_seqStep _ _ (waitPrev_not_mem_provisionStep j w) ?_
  refine waitPrev_not_mem_seqStep _ _ ?_ ?_
  · unfold createStep; cases w.create <;> simp
  refine waitPrev_not_mem_seqStep _ _ ?_ ?_
  · unfold copyFilesStep; split
    · cases w.copyWorkspace <;> simp
    · simp
  refine waitPrev_not_mem_seqStep _ _ ?_ ?_
  · unfold startStep; cases w.startC <;> simp
  refine waitPrev_not_mem_seqStep _ _ ?_ ?_
  · exact waitPrev_not_mem_execLoop w.cmd _ 0
  refine waitPrev_not_mem_seqStep _ _ ?_ ?_
  · unfold artifactStep; split
    · cases w.copyArtifact <;> simp
    · simp
  refine waitPrev_not_mem_seqStep _ _ ?_ ?_
  · unfold stopStep; cases w.stopC <;> simp
  · unfold removeStep; cases w.removeC <;> simp

theorem waitPrev_not_mem_jobBody (env : List (String × String)) (j : MJob)
    (w : JobWorld) : Effect.waitPrev ∉ (jobBody env j w).2 := by
  unfold jobBody
  split
  · simp
  · simp only [List.mem_append]
    intro hmem
    rcases hmem with hl | hr
    · revert hl; split <;> simp
    · exact absurd hr (waitPrev_not_mem_jobSteps j w)

theorem jobRunner_waits_iff (env : List (String × String)) (j : MJob)
    (w : JobWorld) :
    Effect.waitPrev ∈ (jobRunner env j w).2 ↔
      (j.previous.isSome = true ∧ j.isParallel = false) := by
  unfold jobRunner
  rcases hp : j.previous with _ | prevOut <;> cases hb : j.isParallel
  · simpa using waitPrev_not_mem_jobBody env j w
  · simpa using waitPrev_not_mem_jobBody env j w
  · cases prevOut with
    | none =>
      simp only [Option.isSome_none, Bool.false_eq_true, if_false]
      cases hbody : jobBody env j w with
      | mk r tr => simp
    | some pe => simp
  · simpa using waitPrev_not_mem_jobBody env j w

/- ## C1 -/

/-- C1 (amended): the parser assigns `job[i-1]` as the predecessor of
`job[i]` iff `job[i]` is not parallel or `job[i-1]` is not parallel, exactly
as claimed; but at execution time a job blocks on its predecessor's outcome
iff its predecessor link is set AND the job itself is not parallel, which
for `i ≥ 1` collapses to: `job[i]` gates on `job[i-1]` iff `job[i]` is not
parallel.  In particular a parallel job following a non-parallel job does
NOT gate on it, contrary to the original claim. -/
theorem c1_predecessor_and_gating (pars : List Bool) (i : Nat)
    (h1 : 0 < i) (h2 : i < pars.length) :
    (parsePrev pars i = some (i - 1) ↔
      (pars.getD i false = false ∨ pars.getD (i - 1) false = false))
    ∧ (∀ (env : List (String × String)) (j : MJob) (w : JobWorld),
        j.isParallel = pars.getD i false →
        j.previous.isSome = (parsePrev pars i).isSome →
        (Effect.waitPrev ∈ (jobRunner env j w).2 ↔ pars.getD i false = false)) := by
  constructor
  · unfold parsePrev
    split
    · rename_i hcond
      obtain ⟨-, -, hc⟩ := hcond
      simp only [Bool.or_eq_true, Bool.not_eq_true'] at hc
      exact iff_of_true rfl hc
    · rename_i hcond
      have hc : ¬(pars.getD i false = false ∨ pars.getD (i - 1) false = false) := by
        intro hor
        exact hcond ⟨h1, h2, by simpa only [Bool.or_eq_true, Bool.not_eq_true'] using hor⟩
      exact iff_of_false (by simp) hc
  · intro env j w hpar hprev
    rw [jobRunner_waits_iff]
    have hp : (parsePrev pars i).isSome =
        (!(pars.getD i false) || !(pars.getD (i - 1) false)) := by
      unfold parsePrev
      cases hab : (!(pars.getD i false) || !(pars.getD (i - 1) false)) with
      | false =>
        rw [if_neg]
        · rfl
        · rintro ⟨-, -, hcc⟩
          cases hcc
      | true => rw [if_pos ⟨h1, h2, rfl⟩]; rfl
    rw [hp] at hprev
    constructor
    · rintro ⟨-, hparf⟩
      rw [hpar] at hparf
      exact hparf
    · intro haf
      refine ⟨?_, by rw [hpar]; exact haf⟩
      rw [hprev, haf]
      simp

/-- Witness for C1: in the workflow `[parallel, non-parallel]` the second job
is assigned the first as predecessor and does gate on it. -/
theorem c1_witness :
    parsePrev [true, false] 1 = some 0
    ∧ Effect.waitPrev ∈ (jobRunner [] jGate wAllGood).2 := by
  have h := c1_predecessor_and_gating [true, false] 1 (by decide) (by decide)
  exact ⟨h.1.mpr (Or.inl (by decide)),
    (h.2 [] jGate wAllGood (by decide) (by decide)).mpr (by decide)⟩

/-- C1 counterexample: in the workflow `[non-parallel, parallel]` the jobs at
positions 0 and 1 are not both parallel, and the parser does assign the
predecessor link, yet the parallel job at position 1 never blocks on it:
`jobRunner` requires the current job itself to be non-parallel before
waiting, refuting "a parallel job following a non-parallel job still gates
on it". -/
theorem c1_counterexample :
    parsePrev [false, true] 1 = some 0
    ∧ ([false, true].getD 1 false && [false, true].getD 0 false) = false
    ∧ Effect.waitPrev ∉ (jobRunner [] jParFail wAllGood).2 := by decide

/- ## C3 -/

/-- C3 (amended): a job that actually gates on its designated predecessor
(predecessor link set and the job itself not parallel) and observes a failed
outcome performs no other step at all — it evaluates no condition,
provisions no image, creates no container and runs no scripts — and signals
`nil` on its completion channel; under the retry wrapper the job therefore
terminates with a non-error outcome, so the skip is never surfaced as an
error to the pipeline caller.  (A parallel job with a designated failing
predecessor, by contrast, does not skip; see the counterexample.) -/
theorem c3_skip_on_failed_predecessor (env : List (String × String)) (j : MJob)
    (w : JobWorld) (msg : String) (hprev : j.previous = some (some msg))
    (hpar : j.isParallel = false) :
    jobRunner env j w = (none, [Effect.waitPrev])
    ∧ (∀ (worlds : Nat → JobWorld) (cfg : RetryConfig), 1 ≤ cfg.maxAttempts →
        jobRunnerWithRetry env j worlds cfg =
          .signalled none [[Effect.waitPrev]] []) := by
  have hrun : ∀ w2 : JobWorld, jobRunner env j w2 = (none, [Effect.waitPrev]) := by
    intro w2
    unfold jobRunner
    simp only [hprev, hpar]
    simp
  refine ⟨hrun w, ?_⟩
  intro worlds cfg hmax
  obtain ⟨n, hn⟩ : ∃ n, cfg.maxAttempts = n + 1 := ⟨cfg.maxAttempts - 1, by omega⟩
  unfold jobRunnerWithRetry
  rw [hn]
  unfold retryAux
  rw [hrun (worlds 1)]
  simp

/-- Witness for C3 at a concrete skipped job. -/
theorem c3_witness :
    jobRunner [] jSkip wAllGood = (none, [Effect.waitPrev])
    ∧ jobRunnerWithRetry [] jSkip (fun _ => wAllGood) ⟨3, 1, 1⟩ =
        .signalled none [[Effect.waitPrev]] [] := by
  have h := c3_skip_on_failed_predecessor [] jSkip wAllGood "boom" rfl rfl
  exact ⟨h.1, h.2 (fun _ => wAllGood) ⟨3, 1, 1⟩ (by decide)⟩

/-- C3 counterexample: a parallel job whose designated predecessor signalled
the failure "boom" does not skip: it creates a container and runs its
script, refuting the claim for jobs that do not gate. -/
theorem c3_counterexample :
    jParFail.previous = some (some "boom")
    ∧ Effect.createContainer ∈ (jobRunner [] jParFail wAllGood).2
    ∧ Effect.execCmd 0 ∈ (jobRunner [] jParFail wAllGood).2 := by decide

/- ## C7 -/

/-- C7 (amended): `IsValidCondition` returns false exactly for the nonempty
expressions containing a character outside `[\w\s\$"'=!&|]`, but the engine
never invokes it during job execution: the condition gate of `jobRunner`
skips or proceeds based solely on `EvaluateCondition`, and an invalid
expression such as `a;b` is evaluated rather than rejected, letting the job
run. -/
theorem c7_validity_not_enforced :
    (∀ c : String, isValidCondition c = false ↔
      (c ≠ "" ∧ ∃ ch ∈ c.data, isCondChar ch = false))
    ∧ (∀ (env : List (String × String)) (j : MJob) (w : JobWorld),
        j.condition ≠ "" → evaluateCondition env j.condition = false →
        jobBody env j w = (none, [Effect.evalCond]))
    ∧ isValidCondition "a;b" = false
    ∧ Effect.execCmd 0 ∈ (jobRunner [] jBadCond wAllGood).2 := by
  refine ⟨?_, ?_, by decide, by decide⟩
  · intro c
    unfold isValidCondition
    by_cases hc : c = ""
    · subst hc
      simp
    · rw [if_neg (by simpa using hc)]
      constructor
      · intro hall
        refine ⟨hc, ?_⟩
        by_contra hnone
        push_neg at hnone
        have : c.data.all isCondChar = true := by
          rw [List.all_eq_true]
          intro ch hch
          rcases hv : isCondChar ch with _ | _
          · exact absurd hv (hnone ch hch)
          · rfl
        rw [this] at hall
        cases hall
      · rintro ⟨-, ch, hch, hv⟩
        rcases hall : c.data.all isCondChar with _ | _
        · rfl
        · rw [List.all_eq_true] at hall
          rw [hall ch hch] at hv
          cases hv
  · intro env j w h1 h2
    unfold jobBody
    split
    · rfl
    · rename_i hcond
      exact absurd (by simp [h1, h2]) hcond

/-- Witness for C7: the invalid expression `a;b` is rejected by the validity
predicate, and a job whose (valid or not) condition evaluates to false is
skipped purely on that evaluation. -/
theorem c7_witness :
    isValidCondition "a;b" = false
    ∧ jobBody [] jCondFalse wAllGood = (none, [Effect.evalCond]) :=
  ⟨(c7_validity_not_enforced.1 "a;b").mpr ⟨by decide, ';', by decide, by decide⟩,
   c7_validity_not_enforced.2.1 [] jCondFalse wAllGood (by decide) (by decide)⟩

/-- C7 counterexample: the expression `a;b` contains `;`, a character outside
`[\w\s\$"'=!&|]`, yet during job execution it is not rejected: the engine
evaluates it (to true, as a non-empty bareword) and the job proceeds to
create its container. -/
theorem c7_counterexample :
    isValidCondition "a;b" = false
    ∧ evaluateCondition [] "a;b" = true
    ∧ (jobRunner [] jBadCond wAllGood).1 = none
    ∧ Effect.createContainer ∈ (jobRunner [] jBadCond wAllGood).2 := by decide

/- ## Retry lemmas for C2 -/

theorem retryAux_all_fail (env : List (String × String)) (j : MJob)
    (worlds : Nat → JobWorld) (cfg : RetryConfig) (hng : gatesOnPrev j = false) :
    ∀ (r attempt : Nat) (full : Bool),
    (∀ k, attempt ≤ k → k < attempt + (r + 1) →
      (jobRunner env j (worlds k)).1.isSome = true) →
    retryAux env j worlds cfg attempt (r + 1) full =
      .signalled (jobRunner env j (worlds (attempt + r))).1
        ((List.range (r + 1)).map (fun t => (jobRunner env j (worlds (attempt + t))).2))
        ((List.range r).map (fun t => retryDelay cfg (attempt + t))) := by
  intro r
  induction r with
  | zero =>
    intro attempt full hfail
    have hcur := hfail attempt (le_refl _) (by omega)
    obtain ⟨e, he⟩ := Option.isSome_iff_exists.mp hcur
    unfold retryAux
    rw [if_neg (by simp [hng])]
    cases hjr : jobRunner env j (worlds attempt) with
    | mk res tr =>
      rw [hjr] at he
      dsimp only at he
      subst he
      simp [List.range_succ, hjr]
  | succ r ih =>
    intro attempt full hfail
    have hcur := hfail attempt (le_refl _) (by omega)
    obtain ⟨e, he⟩ := Option.isSome_iff_exists.mp hcur
    have ih2 := ih (attempt + 1) (full && !(gatesOnPrev j))
      (fun k hk1 hk2 => hfail k (by omega) (by omega))
    have htr : (List.range (r + 1 + 1)).map
          (fun t => (jobRunner env j (worlds (attempt + t))).2) =
        (jobRunner env j (worlds attempt)).2 ::
          (List.range (r + 1)).map
            (fun t => (jobRunner env j (worlds (attempt + 1 + t))).2) := by
      rw [List.range_succ_eq_map, List.map_cons, List.map_map]
      refine congrArg₂ List.cons (by simp) (List.map_congr_left ?_)
      intro t _
      have harith : attempt + Nat.succ t = attempt + 1 + t := by omega
      simp [Function.comp, harith]
    have hds : (List.range (r + 1)).map (fun t => retryDelay cfg (attempt + t)) =
        retryDelay cfg attempt ::
          (List.range r).map (fun t => retryDelay cfg (attempt + 1 + t)) := by
      rw [List.range_succ_eq_map, List.map_cons, List.map_map]
      refine congrArg₂ List.cons (by simp) (List.map_congr_left ?_)
      intro t _
      have harith : attempt + Nat.succ t = attempt + 1 + t := by omega
      simp [Function.comp, harith]
    have hidx : attempt + (r + 1) = attempt + 1 + r := by omega
    unfold retryAux
    rw [if_neg (by simp [hng])]
    cases hjr : jobRunner env j (worlds attempt) with
    | mk res tr =>
      rw [hjr] at he
      dsimp only at he
      subst he
      dsimp only
      rw [if_neg (by omega), ih2, hidx, htr, hds, hjr]

theorem retryAux_first_success (env : List (String × String)) (j : MJob)
    (worlds : Nat → JobWorld) (cfg : RetryConfig) (hng : gatesOnPrev j = false) :
    ∀ (r attempt m : Nat) (full : Bool), attempt ≤ m → m < attempt + (r + 1) →
    (∀ k, attempt ≤ k → k < m → (jobRunner env j (worlds k)).1.isSome = true) →
    (jobRunner env j (worlds m)).1 = none →
    retryAux env j worlds cfg attempt (r + 1) full =
      .signalled none
        ((List.range (m - attempt + 1)).map
          (fun t => (jobRunner env j (worlds (attempt + t))).2))
        ((List.range (m - attempt)).map (fun t => retryDelay cfg (attempt + t))) := by
  intro r
  induction r with
  | zero =>
    intro attempt m full hm1 hm2 _ hsucc
    have ham : attempt = m := by omega
    subst ham
    unfold retryAux
    rw [if_neg (by simp [hng])]
    cases hjr : jobRunner env j (worlds attempt) with
    | mk res tr =>
      rw [hjr] at hsucc
      dsimp only at hsucc
      subst hsucc
      simp [List.range_succ, hjr]
  | succ r ih =>
    intro attempt m full hm1 hm2 hfail hsucc
    by_cases ham : attempt = m
    · subst ham
      unfold retryAux
      rw [if_neg (by simp [hng])]
      cases hjr : jobRunner env j (worlds attempt) with
      | mk res tr =>
        rw [hjr] at hsucc
        dsimp only at hsucc
        subst hsucc
        simp [List.range_succ, hjr]
    · have hlt : attempt < m := by omega
      have hcur := hfail attempt (le_refl _) hlt
      obtain ⟨e, he⟩ := Option.isSome_iff_exists.mp hcur
      have ih2 := ih (attempt + 1) m (full && !(gatesOnPrev j)) (by omega) (by omega)
        (fun k hk1 hk2 => hfail k (by omega) hk2) hsucc
      have hsub : m - attempt = (m - (attempt + 1)) + 1 := by omega
      have htr : (List.range (m - (attempt + 1) + 1 + 1)).map
            (fun t => (jobRunner env j (worlds (attempt + t))).2) =
          (jobRunner env j (worlds attempt)).2 ::
            (List.range (m - (attempt + 1) + 1)).map
              (fun t => (jobRunner env j (worlds (attempt + 1 + t))).2) := by
        rw [List.range_succ_eq_map, List.map_cons, List.map_map]
        refine congrArg₂ List.cons (by simp) (List.map_congr_left ?_)
        intro t _
        have harith : attempt + Nat.succ t = attempt + 1 + t := by omega
        simp [Function.comp, harith]
      have hds : (List.range (m - (attempt + 1) + 1)).map
            (fun t => retryDelay cfg (attempt + t)) =
          retryDelay cfg attempt ::
            (List.range (m - (attempt + 1))).map
              (fun t => retryDelay cfg (attempt + 1 + t)) := by
        rw [List.range_succ_eq_map, List.map_cons, List.map_map]
        refine congrArg₂ List.cons (by simp) (List.map_congr_left ?_)
        intro t _
        have harith : attempt + Nat.succ t = attempt + 1 + t := by omega
        simp [Function.comp, harith]
      unfold retryAux
      rw [if_neg (by simp [hng])]
      cases hjr : jobRunner env j (worlds attempt) with
      | mk res tr =>
        rw [hjr] at he
        dsimp only at he
        subst he
        dsimp only
        rw [if_neg (by omega), ih2, hsub, htr, hds, hjr]

theorem retryAux_blocks (env : List (String × String)) (j : MJob)
    (worlds : Nat → JobWorld) (cfg : RetryConfig) (hg : gatesOnPrev j = true) :
    ∀ (r attempt : Nat),
    (jobRunner env j (worlds attempt)).1.isSome = true →
    retryAux env j worlds cfg attempt (r + 1 + 1) true =
      .blockedForever [(jobRunner env j (worlds attempt)).2]
        [retryDelay cfg attempt] := by
  intro r attempt hfail
  obtain ⟨e, he⟩ := Option.isSome_iff_exists.mp hfail
  have hblock : retryAux env j worlds cfg (attempt + 1) (r + 1)
      (true && !(gatesOnPrev j)) = .blockedForever [] [] := by
    unfold retryAux
    rw [if_pos (by simp [hg])]
  unfold retryAux
  rw [if_neg (by simp)]
  cases hjr : jobRunner env j (worlds attempt) with
  | mk res tr =>
    rw [hjr] at he
    dsimp only at he
    subst he
    dsimp only
    rw [if_neg (by omega), hblock]

theorem sum_map_one : ∀ k : Nat, ((List.range k).map (fun _ => (1 : Nat))).sum = k := by
  intro k
  induction k with
  | zero => rfl
  | succ k ih => simp [List.range_succ, ih]

/- ## C2 -/

theorem goFloatToInt64_of_nonneg (q : ℚ) (h : 0 ≤ q) : goFloatToInt64 q = ⌊q⌋ := by
  unfold goFloatToInt64
  rw [if_pos h]

/-- C2 (amended): under the retry policy with `maxAttempts = n ≥ 1`: (a) for
a job that does not gate on a predecessor, if every attempt fails the
per-attempt state machine runs exactly `n` times, the sleep after failed
attempt `k` (for `k < n`) is `delay * backoff^(k-1)` seconds truncated to a
whole number of seconds by the float-to-`Duration` conversion, and the
terminal outcome is the error of the last attempt; (b) for such a job a
first success at attempt `m` stops after exactly `m` attempts and `m - 1`
sleeps with a success signal; (c) for any job a successful first attempt is
signalled immediately with no sleep; (d) a job that gates on its predecessor
drains the predecessor's single-slot channel on its first attempt, so when
that attempt fails and attempts remain, the next attempt blocks forever on
the drained channel: exactly one state-machine run and one sleep happen and
no outcome is ever signalled; and (e) for the concrete always-failing
non-gating job the container create step runs exactly once per attempt,
hence `n` times in total.  Each attempt evaluates `jobRunner` on the
(unchanged) job descriptor with its own adapter oracle, mirroring the
per-attempt fresh copy and fresh channel of the source. -/
theorem c2_retry_truncation_and_blocking (env : List (String × String)) (j : MJob)
    (worlds : Nat → JobWorld) (cfg : RetryConfig) (hmax : 1 ≤ cfg.maxAttempts) :
    (gatesOnPrev j = false →
      (∀ k, 1 ≤ k → k ≤ cfg.maxAttempts →
        (jobRunner env j (worlds k)).1.isSome = true) →
      jobRunnerWithRetry env j worlds cfg =
        .signalled (jobRunner env j (worlds cfg.maxAttempts)).1
          ((List.range cfg.maxAttempts).map
            (fun t => (jobRunner env j (worlds (1 + t))).2))
          ((List.range (cfg.maxAttempts - 1)).map
            (fun t => goFloatToInt64
              ((cfg.delaySeconds : ℚ) * cfg.backoffMultiplier ^ t))))
    ∧ (gatesOnPrev j = false → ∀ m, 1 ≤ m → m ≤ cfg.maxAttempts →
        (∀ k, 1 ≤ k → k < m → (jobRunner env j (worlds k)).1.isSome = true) →
        (jobRunner env j (worlds m)).1 = none →
        ∃ trs ds, jobRunnerWithRetry env j worlds cfg = .signalled none trs ds
          ∧ trs.length = m ∧ ds.length = m - 1)
    ∧ ((jobRunner env j (worlds 1)).1 = none →
        jobRunnerWithRetry env j worlds cfg =
          .signalled none [(jobRunner env j (worlds 1)).2] [])
    ∧ (gatesOnPrev j = true → 2 ≤ cfg.maxAttempts →
        (jobRunner env j (worlds 1)).1.isSome = true →
        jobRunnerWithRetry env j worlds cfg =
          .blockedForever [(jobRunner env j (worlds 1)).2] [retryDelay cfg 1])
    ∧ (((jobRunnerWithRetry [] jAlwaysFail (fun _ => wExecFail) cfg).attempts.map
        (fun tr => tr.count Effect.createContainer)).sum = cfg.maxAttempts) := by
  obtain ⟨n, hn⟩ : ∃ n, cfg.maxAttempts = n + 1 := ⟨cfg.maxAttempts - 1, by omega⟩
  refine ⟨?_, ?_, ?_, ?_, ?_⟩
  · intro hng hfail
    unfold jobRunnerWithRetry
    rw [hn]
    simp only [Nat.add_sub_cancel]
    rw [retryAux_all_fail env j worlds cfg hng n 1 true
      (fun k hk1 hk2 => hfail k hk1 (by omega))]
    have h1n : 1 + n = n + 1 := by omega
    rw [h1n]
    have hds2 : (List.range n).map (fun t => retryDelay cfg (1 + t)) =
        (List.range n).map
          (fun t => goFloatToInt64
            ((cfg.delaySeconds : ℚ) * cfg.backoffMultiplier ^ t)) := by
      refine List.map_congr_left ?_
      intro t _
      unfold retryDelay
      have ht : 1 + t - 1 = t := by omega
      rw [ht]
    rw [hds2]
  · intro hng m hm1 hm2 hfail hsucc
    have heq : jobRunnerWithRetry env j worlds cfg =
        .signalled none
          ((List.range (m - 1 + 1)).map
            (fun t => (jobRunner env j (worlds (1 + t))).2))
          ((List.range (m - 1)).map (fun t => retryDelay cfg (1 + t))) := by
      unfold jobRunnerWithRetry
      rw [hn]
      exact retryAux_first_success env j worlds cfg hng n 1 m true hm1 (by omega)
        hfail hsucc
    exact ⟨_, _, heq, by simp only [List.length_map, List.length_range]; omega,
      by simp only [List.length_map, List.length_range]⟩
  · intro h1
    unfold jobRunnerWithRetry
    rw [hn]
    unfold retryAux
    rw [if_neg (by simp)]
    cases hjr : jobRunner env j (worlds 1) with
    | mk res tr =>
      rw [hjr] at h1
      dsimp only at h1
      subst h1
      rfl
  · intro hg h2 hf1
    obtain ⟨r, hr⟩ : ∃ r, cfg.maxAttempts = r + 1 + 1 := ⟨cfg.maxAttempts - 2, by omega⟩
    unfold jobRunnerWithRetry
    rw [hr]
    exact retryAux_blocks env j worlds cfg hg r 1 hf1
  · have hf : ∀ k, 1 ≤ k → k < 1 + (n + 1) →
        (jobRunner [] jAlwaysFail ((fun _ => wExecFail) k)).1.isSome = true := by
      intro k _ _
      show (jobRunner [] jAlwaysFail wExecFail).1.isSome = true
      decide
    unfold jobRunnerWithRetry
    rw [hn]
    rw [retryAux_all_fail [] jAlwaysFail (fun _ => wExecFail) cfg (by decide) n 1 true
      (fun k h1 h2 => hf k h1 h2)]
    dsimp only [RetryOutcome.attempts]
    rw [List.map_map]
    have hcongr : (List.range (n + 1)).map
        ((fun tr => tr.count Effect.createContainer) ∘
          (fun t => (jobRunner [] jAlwaysFail wExecFail).2)) =
        (List.range (n + 1)).map (fun _ => (1 : Nat)) := by
      refine List.map_congr_left ?_
      intro t _
      simp only [Function.comp]
      decide
    rw [hcongr, sum_map_one]

/-- C2 counterexample: with `retry = {attempts 3, delay 1, backoff 1.5}` and
a non-gating always-failing job, the executor sleeps 1 whole second after
both failed attempts — the float product `1 * 1.5^(2-1) = 1.5` is truncated
by the `time.Duration` conversion — where the claim demands a sleep of
exactly `1.5` seconds after attempt 2; and a job that gates on its
(successful) predecessor with `retry = {attempts 2, delay 0}` and a failing
script runs the state machine once and then blocks forever on the drained
predecessor channel, instead of running it exactly 2 times and signalling
the last error. -/
theorem c2_counterexample :
    jobRunnerWithRetry [] jAlwaysFail (fun _ => wExecFail) ⟨3, 1, 3 / 2⟩ =
      .signalled (some "command execution failed")
        [c2FailTrace, c2FailTrace, c2FailTrace] [1, 1]
    ∧ ((1 : ℚ) * (3 / 2 : ℚ) ^ (2 - 1 : ℕ) = 3 / 2)
    ∧ ¬((3 / 2 : ℚ) = ((1 : ℤ) : ℚ))
    ∧ jobRunnerWithRetry [] jGateFail (fun _ => wExecFail) ⟨2, 0, 1⟩ =
        .blockedForever [Effect.waitPrev :: c2FailTrace] [0] := by
  have hA : jobRunner [] jAlwaysFail wExecFail =
      (some "command execution failed", c2FailTrace) := by decide
  have hd1 : retryDelay ⟨3, 1, 3 / 2⟩ 1 = 1 := by
    unfold retryDelay goFloatToInt64
    rw [if_pos (by norm_num)]
    rw [Int.floor_eq_iff]
    constructor <;> norm_num
  have hd2 : retryDelay ⟨3, 1, 3 / 2⟩ 2 = 1 := by
    unfold retryDelay goFloatToInt64
    rw [if_pos (by norm_num)]
    rw [Int.floor_eq_iff]
    constructor <;> norm_num
  refine ⟨?_, by norm_num, by norm_num, ?_⟩
  · have hf : ∀ k, 1 ≤ k → k < 1 + (2 + 1) →
        (jobRunner [] jAlwaysFail ((fun _ => wExecFail) k)).1.isSome = true := by
      intro k _ _
      show (jobRunner [] jAlwaysFail wExecFail).1.isSome = true
      decide
    have hrun := retryAux_all_fail [] jAlwaysFail (fun _ => wExecFail) ⟨3, 1, 3 / 2⟩
      (by decide) 2 1 true hf
    unfold jobRunnerWithRetry
    show retryAux [] jAlwaysFail (fun _ => wExecFail) ⟨3, 1, 3 / 2⟩ 1 (2 + 1) true = _
    rw [hrun]
    simp [List.range_succ, hA, hd1, hd2]
  · have hd0 : retryDelay ⟨2, 0, 1⟩ 1 = 0 := by
      unfold retryDelay goFloatToInt64
      rw [if_pos (by norm_num)]
      rw [Int.floor_eq_iff]
      constructor <;> norm_num
    have hB : jobRunner [] jGateFail wExecFail =
        (some "command execution failed", Effect.waitPrev :: c2FailTrace) := by decide
    have hb := retryAux_blocks [] jGateFail (fun _ => wExecFail) ⟨2, 0, 1⟩
      (by decide) 0 1 (by decide)
    unfold jobRunnerWithRetry
    show retryAux [] jGateFail (fun _ => wExecFail) ⟨2, 0, 1⟩ 1 (0 + 1 + 1) true = _
    rw [hb]
    simp [hB, hd0]

/-- Witness for C2: an always-failing non-gating job under
`retry = {attempts 2, delay 3, backoff 2}` runs the state machine twice,
sleeps 3 whole seconds once, and surfaces the last "command execution
failed" error; a gating job with a failing script under
`retry = {attempts 2, delay 0}` runs it once and blocks forever. -/
theorem c2_witness :
    jobRunnerWithRetry [] jAlwaysFail (fun _ => wExecFail) ⟨2, 3, 2⟩ =
      .signalled (some "command execution failed") [c2FailTrace, c2FailTrace] [3]
    ∧ jobRunnerWithRetry [] jGateFail (fun _ => wExecFail) ⟨2, 0, 1⟩ =
        .blockedForever [Effect.waitPrev :: c2FailTrace] [0] := by
  have hA : jobRunner [] jAlwaysFail wExecFail =
      (some "command execution failed", c2FailTrace) := by decide
  have hB : jobRunner [] jGateFail wExecFail =
      (some "command execution failed", Effect.waitPrev :: c2FailTrace) := by decide
  have hf : ∀ k, 1 ≤ k → k ≤ (⟨2, 3, 2⟩ : RetryConfig).maxAttempts →
      (jobRunner [] jAlwaysFail ((fun _ => wExecFail) k)).1.isSome = true := by
    intro k _ _
    show (jobRunner [] jAlwaysFail wExecFail).1.isSome = true
    decide
  have h1 := (c2_retry_truncation_and_blocking [] jAlwaysFail (fun _ => wExecFail)
    ⟨2, 3, 2⟩ (by decide)).1 (by decide) hf
  have h2 := (c2_retry_truncation_and_blocking [] jGateFail (fun _ => wExecFail)
    ⟨2, 0, 1⟩ (by decide)).2.2.2.1 (by decide) (by decide) (by decide)
  have hg3 : goFloatToInt64 (3 : ℚ) = 3 := by
    rw [goFloatToInt64_of_nonneg _ (by norm_num)]
    rw [Int.floor_eq_iff]
    constructor <;> norm_num
  have hd0 : retryDelay ⟨2, 0, 1⟩ 1 = 0 := by
    unfold retryDelay goFloatToInt64
    rw [if_pos (by norm_num)]
    rw [Int.floor_eq_iff]
    constructor <;> norm_num
  constructor
  · rw [h1]
    simp [List.range_succ, hA, hg3]
  · rw [h2]
    simp [hB, hd0]

/- ## String lemmas for C5 -/

theorem dollar_data : "$".data = ['$'] := rfl

theorem dquote_data : "\"".data = ['"'] := rfl

theorem squote_data : "'".data = ['\''] := rfl

theorem trimList_sandwich (a b : Char) (xs : List Char)
    (ha : isGoSpace a = false) (hb : isGoSpace b = false) :
    trimList (a :: (xs ++ [b])) = a :: (xs ++ [b]) := by
  have h1 : (a :: (xs ++ [b])).dropWhile isGoSpace = a :: (xs ++ [b]) := by
    simp [List.dropWhile_cons, ha]
  have h2 : (a :: (xs ++ [b])).reverse = b :: (xs.reverse ++ [a]) := by
    simp
  have h3 : (b :: (xs.reverse ++ [a])).dropWhile isGoSpace =
      b :: (xs.reverse ++ [a]) := by
    simp [List.dropWhile_cons, hb]
  unfold trimList
  rw [h1, h2, h3, ← h2, List.reverse_reverse]

theorem trimList_all_nonspace (l : List Char)
    (h : l.all (fun c => !isGoSpace c) = true) : trimList l = l := by
  have hdrop : ∀ m : List Char, m.all (fun c => !isGoSpace c) = true →
      m.dropWhile isGoSpace = m := by
    intro m hm
    cases m with
    | nil => rfl
    | cons c t =>
      simp only [List.all_cons, Bool.and_eq_true, Bool.not_eq_true'] at hm
      simp [List.dropWhile_cons, hm.1]
  unfold trimList
  rw [hdrop l h, hdrop l.reverse (by simpa using h), List.reverse_reverse]

theorem goStartsWith_single (q : String) (c a : Char) (l : List Char)
    (hq : q.data = [c]) : goStartsWith ⟨a :: l⟩ q = (c == a) := by
  unfold goStartsWith
  rw [hq]
  simp [List.isPrefixOf]

theorem goEndsWith_concat (q : String) (c b : Char) (l : List Char)
    (hq : q.data = [c]) : goEndsWith ⟨l ++ [b]⟩ q = (c == b) := by
  unfold goEndsWith
  rw [hq]
  simp [List.isSuffixOf, List.isPrefixOf]

theorem goGetenv_not_mem (env : List (String × String)) (key : String)
    (h : key ∉ env.map Prod.fst) : goGetenv env key = "" := by
  unfold goGetenv
  have hfind : env.find? (fun p => p.1 == key) = none := by
    rw [List.find?_eq_none]
    intro x hx hbeq
    have hxk : x.1 = key := by simpa using hbeq
    apply h
    rw [← hxk]
    exact List.mem_map_of_mem Prod.fst hx
  rw [hfind]

theorem goEndsWith_sandwich (q : String) (c a b : Char) (l : List Char)
    (hq : q.data = [c]) : goEndsWith ⟨a :: (l ++ [b])⟩ q = (c == b) :=
  goEndsWith_concat q c b (a :: l) hq

theorem resolveValue_dollar (env : List (String × String)) (name : String)
    (hname : name.data.all (fun ch => !isGoSpace ch) = true) :
    resolveValue env ("$" ++ name) = goGetenv env name := by
  obtain ⟨d⟩ := name
  have hd : d.all (fun ch => !isGoSpace ch) = true := hname
  have h0 : ("$" ++ (⟨d⟩ : String)) = ⟨'$' :: d⟩ := rfl
  rw [h0]
  have htrim : goTrim ⟨'$' :: d⟩ = ⟨'$' :: d⟩ := by
    unfold goTrim
    rw [trimList_all_nonspace ('$' :: d) (by simp [hd]; decide)]
  simp only [resolveValue]
  rw [htrim, goStartsWith_single "$" '$' '$' d dollar_data]
  simp [goDropFirst]

theorem resolveValue_dquote (env : List (String × String)) (inner : String) :
    resolveValue env ("\"" ++ inner ++ "\"") = inner := by
  obtain ⟨d⟩ := inner
  have h0 : ("\"" ++ (⟨d⟩ : String) ++ "\"") = ⟨'"' :: (d ++ ['"'])⟩ := rfl
  rw [h0]
  have htrim : goTrim ⟨'"' :: (d ++ ['"'])⟩ = ⟨'"' :: (d ++ ['"'])⟩ := by
    unfold goTrim
    rw [trimList_sandwich '"' '"' d (by decide) (by decide)]
  simp only [resolveValue]
  rw [htrim, goStartsWith_single "$" '$' '"' (d ++ ['"']) dollar_data,
    goStartsWith_single "\"" '"' '"' (d ++ ['"']) dquote_data,
    goEndsWith_sandwich "\"" '"' '"' '"' d dquote_data]
  simp [goDropBoth]

theorem resolveValue_squote (env : List (String × String)) (inner : String) :
    resolveValue env ("'" ++ inner ++ "'") = inner := by
  obtain ⟨d⟩ := inner
  have h0 : ("'" ++ (⟨d⟩ : String) ++ "'") = ⟨'\'' :: (d ++ ['\''])⟩ := rfl
  rw [h0]
  have htrim : goTrim ⟨'\'' :: (d ++ ['\''])⟩ = ⟨'\'' :: (d ++ ['\''])⟩ := by
    unfold goTrim
    rw [trimList_sandwich '\'' '\'' d (by decide) (by decide)]
  simp only [resolveValue]
  rw [htrim, goStartsWith_single "$" '$' '\'' (d ++ ['\'']) dollar_data,
    goStartsWith_single "\"" '"' '\'' (d ++ ['\'']) dquote_data,
    goStartsWith_single "'" '\'' '\'' (d ++ ['\'']) squote_data,
    goEndsWith_sandwich "'" '\'' '\'' '\'' d squote_data]
  simp [goDropBoth]

theorem resolveValue_bareword (env : List (String × String)) (s : String)
    (ht : goTrim s = s) (h1 : goStartsWith s "$" = false)
    (h2 : (goStartsWith s "\"" && goEndsWith s "\"") = false)
    (h3 : (goStartsWith s "'" && goEndsWith s "'") = false) :
    resolveValue env s = s := by
  simp only [resolveValue]
  rw [ht, h1, h2, h3]
  simp

/- ## C5 -/

/-- C5: the condition evaluator implements the claimed grammar over the
process environment: the empty string is true; an expression containing
`&&` is split on `&&` (this split is chosen first even when `||` also
occurs) and is true iff every part is true under the term rules; otherwise
one containing `||` is split on `||` and is true iff some part is true;
otherwise `L == R` (resp. `L != R`) compares the resolved sides for
equality (resp. inequality); a standalone term is true iff its resolved
value is non-empty, not "false" and not "0".  Resolution maps `$NAME` to the
environment value of `NAME`, with missing variables resolving to the empty
string, strips surrounding double or single quotes, and leaves (trimmed)
barewords unchanged. -/
theorem c5_condition_grammar (env : List (String × String)) :
    evaluateCondition env "" = true
    ∧ (∀ c, goContains (goTrim c) "&&" = true →
        evaluateCondition env c = (goSplit (goTrim c) "&&").all (evalTerm env))
    ∧ (∀ c, goContains (goTrim c) "&&" = false →
        goContains (goTrim c) "||" = true →
        evaluateCondition env c = (goSplit (goTrim c) "||").any (evalTerm env))
    ∧ (∀ c l r, goContains (goTrim c) "&&" = false →
        goContains (goTrim c) "||" = false →
        goContains (goTrim c) "==" = true →
        goSplit (goTrim c) "==" = [l, r] →
        evaluateCondition env c =
          (resolveValue env (goTrim l) == resolveValue env (goTrim r)))
    ∧ (∀ c l r, goContains (goTrim c) "&&" = false →
        goContains (goTrim c) "||" = false →
        goContains (goTrim c) "==" = false →
        goContains (goTrim c) "!=" = true →
        goSplit (goTrim c) "!=" = [l, r] →
        evaluateCondition env c =
          (resolveValue env (goTrim l) != resolveValue env (goTrim r)))
    ∧ (∀ c, c ≠ "" → goContains (goTrim c) "&&" = false →
        goContains (goTrim c) "||" = false →
        goContains (goTrim c) "==" = false →
        goContains (goTrim c) "!=" = false →
        evaluateCondition env c =
          (resolveValue env (goTrim c) != "" &&
            (resolveValue env (goTrim c) != "false" &&
              resolveValue env (goTrim c) != "0")))
    ∧ (∀ name, name.data.all (fun ch => !isGoSpace ch) = true →
        resolveValue env ("$" ++ name) = goGetenv env name)
    ∧ (∀ key, key ∉ env.map Prod.fst → goGetenv env key = "")
    ∧ (∀ inner, resolveValue env ("\"" ++ inner ++ "\"") = inner)
    ∧ (∀ inner, resolveValue env ("'" ++ inner ++ "'") = inner)
    ∧ (∀ s, goTrim s = s → goStartsWith s "$" = false →
        (goStartsWith s "\"" && goEndsWith s "\"") = false →
        (goStartsWith s "'" && goEndsWith s "'") = false →
        resolveValue env s = s) := by
  refine ⟨rfl, ?_, ?_, ?_, ?_, ?_,
    fun name h => resolveValue_dollar env name h,
    fun key h => goGetenv_not_mem env key h,
    fun inner => resolveValue_dquote env inner,
    fun inner => resolveValue_squote env inner,
    fun s h1 h2 h3 h4 => resolveValue_bareword env s h1 h2 h3 h4⟩
  · intro c hc
    by_cases hce : c = ""
    · exact absurd hc (by rw [hce]; decide)
    · simp only [evaluateCondition]
      rw [if_neg (by simp [hce]), if_pos hc]
      rfl
  · intro c hc1 hc2
    by_cases hce : c = ""
    · exact absurd hc2 (by rw [hce]; decide)
    · simp only [evaluateCondition]
      rw [if_neg (by simp [hce]), if_neg (by simp [hc1]), if_pos hc2]
      rfl
  · intro c l r hc1 hc2 hc3 hsplit
    by_cases hce : c = ""
    · exact absurd hc3 (by rw [hce]; decide)
    · simp only [evaluateCondition]
      rw [if_neg (by simp [hce]), if_neg (by simp [hc1]), if_neg (by simp [hc2]),
        if_pos hc3]
      simp only [evaluateEquality]
      rw [hsplit]
  · intro c l r hc1 hc2 hc3 hc4 hsplit
    by_cases hce : c = ""
    · exact absurd hc4 (by rw [hce]; decide)
    · simp only [evaluateCondition]
      rw [if_neg (by simp [hce]), if_neg (by simp [hc1]), if_neg (by simp [hc2]),
        if_neg (by simp [hc3]), if_pos hc4]
      simp only [evaluateInequality]
      rw [hsplit]
  · intro c hce hc1 hc2 hc3 hc4
    simp only [evaluateCondition]
    rw [if_neg (by simp [hce]), if_neg (by simp [hc1]), if_neg (by simp [hc2]),
      if_neg (by simp [hc3]), if_neg (by simp [hc4])]
    simp only [evaluateVariable]
    rw [Bool.and_assoc]

/-- Witness for C5: the `&&` dispatch and the resolution rules at concrete
inputs. -/
theorem c5_witness :
    evaluateCondition [("BRANCH", "main"), ("ENV", "prod")]
      "$BRANCH == \"main\" && $ENV == \"prod\"" = true
    ∧ resolveValue [] ("'" ++ "hello world" ++ "'") = "hello world" := by
  have h := c5_condition_grammar [("BRANCH", "main"), ("ENV", "prod")]
  have h2 := c5_condition_grammar ([] : List (String × String))
  constructor
  · rw [h.2.1 "$BRANCH == \"main\" && $ENV == \"prod\"" (by decide)]
    decide
  · exact h2.2.2.2.2.2.2.2.2.2.1 "hello world"

end Pin
